import Mathlib

/-!
Verification development for the Meal_Tracker repository.

The frontend sources (Expo / React Native screens and the auth context) are
embedded directly from `src/frontend`.  The backend `backend/server.py`
(food-entry store, serving-consistency rule and daily aggregator) is not part
of the source tree here; the definitions for it are modelled from the spec
(`spec.md`), each marked `Modelled from the spec:` in its doc comment.

Strings are modelled as `List Char`; numbers carried by entries as `ℚ`
(the JSON numbers of the backend), gram weights as `ℕ`.
-/

namespace MealTracker

/-- Decides whether a character is an ASCII decimal digit. -/
def isDigitC (c : Char) : Bool := decide ('0' ≤ c ∧ c ≤ '9')

/-- Numeric value of a digit character (`'0'` ↦ 0, …, `'9'` ↦ 9). -/
def dval (c : Char) : Nat := c.toNat - 48

/-- Value of a list of digit characters read in base 10, most significant first. -/
def digitsVal (l : List Char) : Nat := l.foldl (fun a c => a * 10 + dval c) 0

/-- The decimal digit character for `n % 10`. -/
def digitChar (n : Nat) : Char :=
  match n with
  | 0 => '0' | 1 => '1' | 2 => '2' | 3 => '3' | 4 => '4'
  | 5 => '5' | 6 => '6' | 7 => '7' | 8 => '8' | _ => '9'

/-- Fuel-driven decimal printing of a natural number (fuel keeps the
recursion structural so that the kernel can evaluate it). -/
def toDigitsAux : Nat → Nat → List Char
  | 0, _ => []
  | f + 1, n => if n < 10 then [digitChar n] else toDigitsAux f (n / 10) ++ [digitChar (n % 10)]

/-- Decimal digit string of a natural number. -/
def toDigits (n : Nat) : List Char := toDigitsAux (n + 1) n

/-! ### Parenthetical weight tokens

A weight token is a parenthesised group whose body ends in a nonempty run of
digits followed by `g` — e.g. `"(250g)"` or `"(approx. 100g)"` — the pattern
"digits followed by g within parentheses" of spec §4.2. -/

/-- Splits off the body of a parenthesised group: returns the characters up to
(but excluding) the first `')'` together with the remainder after it, and
`none` if a `'('` or the end of the list is reached first. -/
def splitBody : List Char → Option (List Char × List Char)
  | [] => none
  | c :: r =>
    if c = ')' then some ([], r)
    else if c = '(' then none
    else
      match splitBody r with
      | some (b, rest) => some (c :: b, rest)
      | none => none

/-- The gram value carried by a group body: the body must end in `g` preceded
by a nonempty run of digits (anything may precede the digits). -/
def bodyVal (b : List Char) : Option Nat :=
  match b.reverse with
  | [] => none
  | c :: r =>
    if c = 'g' then
      if r.takeWhile isDigitC = [] then none
      else some (digitsVal (r.takeWhile isDigitC).reverse)
    else none

/-- Reads a weight token starting right after an opening `'('`: the gram value
and the characters after the closing `')'`. -/
def takeTok (l : List Char) : Option (Nat × List Char) :=
  match splitBody l with
  | some (b, rest) =>
    match bodyVal b with
    | some n => some (n, rest)
    | none => none
  | none => none

/-- Whether the string contains a weight token with gram value `n`. -/
def hasTokNum (n : Nat) : List Char → Bool
  | [] => false
  | c :: r =>
    (if c = '(' then
      match takeTok r with
      | some (m, _) => decide (m = n)
      | none => false
     else false) || hasTokNum n r

/-- Whether the string contains any parenthetical weight token. -/
def hasTok : List Char → Bool
  | [] => false
  | c :: r => (if c = '(' then (takeTok r).isSome else false) || hasTok r

/-! ### Stripping weight tokens

`stripOnce` removes the weight tokens found in one left-to-right pass;
`stripFix` iterates until no token remains (removing a token can expose a new
one, e.g. in `"(2(3g)g)"`).  Fuel keeps both kernel-computable. -/

/-- One pass removing every weight token found left to right (fuelled). -/
def stripOnceAux : Nat → List Char → List Char
  | 0, l => l
  | _ + 1, [] => []
  | f + 1, c :: r =>
    if c = '(' then
      match takeTok r with
      | some (_, rest) => stripOnceAux f rest
      | none => c :: stripOnceAux f r
    else c :: stripOnceAux f r

/-- One left-to-right token-removal pass. -/
def stripOnce (l : List Char) : List Char := stripOnceAux l.length l

/-- Iterates `stripOnce` until no weight token remains (fuelled). -/
def stripFixAux : Nat → List Char → List Char
  | 0, l => l
  | f + 1, l => if hasTok l then stripFixAux f (stripOnce l) else l

/-- Removes every weight token, iterating until none remains. -/
def stripFix (l : List Char) : List Char := stripFixAux l.length l

/-! ### Trimming and the regenerated serving strings -/

/-- Whether a character is a space. -/
def isSpace (c : Char) : Bool := decide (c = ' ')

/-- Removes leading spaces. -/
def trimLeft (l : List Char) : List Char := l.dropWhile isSpace

/-- Removes trailing spaces. -/
def trimRight (l : List Char) : List Char := (l.reverse.dropWhile isSpace).reverse

/-- Removes leading and trailing spaces. -/
def trimC (l : List Char) : List Char := trimRight (trimLeft l)

/-- Removes a leading run of digits (a count such as the `1` of
`"1 large bowl"`) together with the spaces after it, when present. -/
def dropCount (l : List Char) : List Char :=
  if l.takeWhile isDigitC = [] then l else (l.dropWhile isDigitC).dropWhile isSpace

/-- The fragment of the eight characters of `"approx. "`. -/
def approxChars : List Char := ['a', 'p', 'p', 'r', 'o', 'x', '.', ' ']

/-- The appended fragment `" (<w>g)"`. -/
def weightTail (w : Nat) : List Char := ' ' :: '(' :: (toDigits w ++ ['g', ')'])

/-- The appended fragment `" (approx. <w>g)"`. -/
def approxTail (w : Nat) : List Char :=
  ' ' :: '(' :: (approxChars ++ toDigits w ++ ['g', ')'])

/-- Modelled from the spec: the serving-consistency rule of §4.2 applied to
`serving_size` (`backend/server.py` is not in the source tree).  The old
weight token (and a leading count such as `"1 "`) is stripped and the new
weight appended: `"<base description> (<new_weight>g)"`. -/
def regenServingSize (s : List Char) (w : Nat) : List Char :=
  trimC (dropCount (stripFix s)) ++ weightTail w

/-- Modelled from the spec: the serving-consistency rule of §4.2 applied to
`food_name`: the old weight annotation is stripped and the name regenerated
as `"<base name> (approx. <new_weight>g)"`. -/
def regenFoodName (s : List Char) (w : Nat) : List Char :=
  trimC (stripFix s) ++ approxTail w

/-! ### Data model and food entry store

Modelled from the spec §3–§4 (`backend/server.py` is not in the source
tree; only its REST callers are).  Entries live in a list; ids and owners
are abstract naturals; JSON numbers are rationals. -/

/-- How an entry was created (spec §3: `entry_type (manual|image|recipe|search)`). -/
inductive EntryType where
  | manual | image | recipe | search
deriving DecidableEq

/-- Modelled from the spec: a persisted food log entry (spec §3 FoodEntry). -/
structure FoodEntry where
  id : Nat
  user_id : Nat
  food_name : List Char
  calories : ℚ
  protein : ℚ
  carbs : ℚ
  fats : ℚ
  serving_size : List Char
  serving_weight : Option Nat
  entry_type : EntryType
  image_data : Option (List Char)
  timestamp : Nat
deriving DecidableEq

/-- Modelled from the spec: the calendar day derived from the timestamp
(spec §3: `date (calendar day derived from timestamp)`). -/
def entryDate (e : FoodEntry) : Nat := e.timestamp / 86400

/-- Modelled from the spec: a partial update patch for `update`
(spec §4.1: partial fields serving_size, serving_weight, food_name). -/
structure UpdatePatch where
  serving_size : Option (List Char)
  serving_weight : Option Nat
  food_name : Option (List Char)
deriving DecidableEq

/-- Modelled from the spec: errors of the store operations (spec §7). -/
inductive StoreError where
  | ValidationError | NotFound
deriving DecidableEq

/-- Modelled from the spec: applies a patch to one entry, enforcing the
serving-consistency rule of §4.2: when the patch supplies `serving_weight`
but not `serving_size`, and the existing strings contain a parenthetical
weight token, both `serving_size` and `food_name` are regenerated. -/
def applyPatch (e : FoodEntry) (p : UpdatePatch) : FoodEntry :=
  { e with
    serving_size :=
      match p.serving_size with
      | some s => s
      | none =>
        match p.serving_weight with
        | some w => if hasTok e.serving_size then regenServingSize e.serving_size w
                    else e.serving_size
        | none => e.serving_size
    serving_weight :=
      match p.serving_weight with
      | some w => some w
      | none => e.serving_weight
    food_name :=
      match p.food_name with
      | some nm => nm
      | none =>
        match p.serving_size, p.serving_weight with
        | none, some w => if hasTok e.food_name then regenFoodName e.food_name w
                          else e.food_name
        | _, _ => e.food_name }

/-- Whether the entry matches the id and is owned by the caller. -/
def matchesOwner (id owner : Nat) (e : FoodEntry) : Bool :=
  decide (e.id = id) && decide (e.user_id = owner)

/-- Modelled from the spec: input of `create`; `food_name` and `calories`
are optional because their absence must raise ValidationError (spec §4.1). -/
structure EntryInput where
  id : Nat
  user_id : Nat
  food_name : Option (List Char)
  calories : Option ℚ
  protein : ℚ
  carbs : ℚ
  fats : ℚ
  serving_size : List Char
  serving_weight : Option Nat
  entry_type : EntryType
  image_data : Option (List Char)
  timestamp : Nat
deriving DecidableEq

/-- The entry built from a fully populated input. -/
def mkEntry (i : EntryInput) (nm : List Char) (c : ℚ) : FoodEntry :=
  { id := i.id, user_id := i.user_id, food_name := nm, calories := c,
    protein := i.protein, carbs := i.carbs, fats := i.fats,
    serving_size := i.serving_size, serving_weight := i.serving_weight,
    entry_type := i.entry_type, image_data := i.image_data,
    timestamp := i.timestamp }

/-- Modelled from the spec: `create(entry)` inserts a new entry, failing
with ValidationError if food_name or calories is missing (spec §4.1). -/
def create (i : EntryInput) (store : List FoodEntry) :
    Except StoreError (List FoodEntry) :=
  match i.food_name, i.calories with
  | some nm, some c => Except.ok (store ++ [mkEntry i nm c])
  | _, _ => Except.error StoreError.ValidationError

/-- Modelled from the spec: `update(id, owner, patch)` applies the patch to
the matching owned entry, failing with NotFound if the id does not exist or
belongs to a different owner (spec §4.1). -/
def update (id owner : Nat) (p : UpdatePatch) (store : List FoodEntry) :
    Except StoreError (List FoodEntry) :=
  if store.any (matchesOwner id owner) then
    Except.ok (store.map fun e => if matchesOwner id owner e then applyPatch e p else e)
  else Except.error StoreError.NotFound

/-- Modelled from the spec: `delete(id, owner)` removes the matching owned
entry, failing with NotFound under the same ownership rule (spec §4.1). -/
def delete (id owner : Nat) (store : List FoodEntry) :
    Except StoreError (List FoodEntry) :=
  if store.any (matchesOwner id owner) then
    Except.ok (store.filter fun e => !(matchesOwner id owner e))
  else Except.error StoreError.NotFound

/-- Timestamp order on entries. -/
def tsLe (a b : FoodEntry) : Prop := a.timestamp ≤ b.timestamp

instance : DecidableRel tsLe := fun a b => Nat.decLe a.timestamp b.timestamp

instance : IsTotal FoodEntry tsLe := ⟨fun a b => Nat.le_total a.timestamp b.timestamp⟩

instance : IsTrans FoodEntry tsLe := ⟨fun _ _ _ h1 h2 => Nat.le_trans h1 h2⟩

/-- Modelled from the spec: `listByDate(owner, date)` returns the entries of
that owner whose derived calendar day is `date`, ordered by timestamp
ascending (spec §4.1). -/
def listByDate (owner date : Nat) (store : List FoodEntry) : List FoodEntry :=
  List.insertionSort tsLe
    (store.filter fun e => decide (e.user_id = owner) && decide (entryDate e = date))

/-- Modelled from the spec: the derived DailyStats record (spec §3). -/
structure DailyStats where
  total_calories : ℚ
  total_protein : ℚ
  total_carbs : ℚ
  total_fats : ℚ
  entries_count : Nat
  daily_goal : ℚ
  remaining_calories : ℚ
  percentage : ℚ
deriving DecidableEq

/-- Modelled from the spec: `computeStats(owner, date, goal)` sums the
nutrition values over `listByDate` and derives remaining calories and the
progress percentage, with the division-by-zero guard when the goal is 0
(spec §4.3). -/
def computeStats (owner date : Nat) (goal : ℚ) (store : List FoodEntry) : DailyStats :=
  let es := listByDate owner date store
  let total := (es.map FoodEntry.calories).sum
  { total_calories := total
    total_protein := (es.map FoodEntry.protein).sum
    total_carbs := (es.map FoodEntry.carbs).sum
    total_fats := (es.map FoodEntry.fats).sum
    entries_count := es.length
    daily_goal := goal
    remaining_calories := goal - total
    percentage := if goal = 0 then 0 else min (total / goal * 100) 100 }

/-! ### Frontend: cross-platform auth storage (`contexts/AuthContext.tsx`)

The web platform backs the `Storage` wrapper with `window.localStorage`,
the other platforms with `AsyncStorage`; the repository's own test log
records that AsyncStorage was not usable on web, so the two backends are
modelled as distinct key-value stores. -/

/-- The platform switch of `Platform.OS === 'web'`. -/
inductive ClientPlatform where
  | web | native
deriving DecidableEq

/-- The two client-side key-value stores visible to `AuthContext.tsx`. -/
structure ClientStorage where
  localStore : List (String × String)
  asyncStore : List (String × String)
deriving DecidableEq

/-- `Storage.getItem` of `AuthContext.tsx` lines 10–16: reads localStorage
on web and AsyncStorage elsewhere. -/
def storageGetItem (p : ClientPlatform) (st : ClientStorage) (key : String) :
    Option String :=
  match p with
  | .web => st.localStore.lookup key
  | .native => st.asyncStore.lookup key

/-- `AsyncStorage.setItem`, as called directly (not via the wrapper) by
`login`/`register` in `AuthContext.tsx` lines 94 and 111. -/
def asyncStorageSetItem (st : ClientStorage) (key value : String) : ClientStorage :=
  { st with asyncStore := (key, value) :: st.asyncStore }

/-- The persistence effect of a successful `login` (`AuthContext.tsx`
lines 87–100): `await AsyncStorage.setItem('token', access_token)`. -/
def login (st : ClientStorage) (access_token : String) : ClientStorage :=
  asyncStorageSetItem st "token" access_token

/-- The token read performed by `loadStoredAuth` on app start
(`AuthContext.tsx` lines 59–71): `await Storage.getItem('token')`. -/
def loadStoredAuth (p : ClientPlatform) (st : ClientStorage) : Option String :=
  storageGetItem p st "token"

/-- A fresh client with both stores empty. -/
def emptyStorage : ClientStorage := ⟨[], []⟩

/-! ### Frontend: the Home screen edit modal (`app/(tabs)/home.tsx`) -/

/-- JavaScript whitespace recognised by our model of `String.trim` and
`parseInt` (space, tab, newline, carriage return). -/
def isWS (c : Char) : Bool := decide (c = ' ' ∨ c = '\t' ∨ c = '\n' ∨ c = '\r')

/-- Model of JavaScript `String.prototype.trim`. -/
def trimJS (l : List Char) : List Char :=
  ((l.dropWhile isWS).reverse.dropWhile isWS).reverse

/-- Whether a character is a hexadecimal digit. -/
def isHexDigit (c : Char) : Bool :=
  isDigitC c || decide ('a' ≤ c ∧ c ≤ 'f') || decide ('A' ≤ c ∧ c ≤ 'F')

/-- Value of a hexadecimal digit character. -/
def hval (c : Char) : Nat :=
  if isDigitC c then c.toNat - 48
  else if decide ('a' ≤ c ∧ c ≤ 'f') then c.toNat - 87
  else c.toNat - 55

/-- Value of a list of hexadecimal digit characters, most significant first. -/
def hexVal (l : List Char) : Nat := l.foldl (fun a c => a * 16 + hval c) 0

/-- Longest-decimal-digit-prefix parse with a sign (`none` is NaN). -/
def decParse (sgn : Int) (r : List Char) : Option Int :=
  if r.takeWhile isDigitC = [] then none
  else some (sgn * (digitsVal (r.takeWhile isDigitC) : Int))

/-- Longest-hex-digit-prefix parse with a sign (`none` is NaN). -/
def hexParse (sgn : Int) (r : List Char) : Option Int :=
  if r.takeWhile isHexDigit = [] then none
  else some (sgn * (hexVal (r.takeWhile isHexDigit) : Int))

/-- After the optional sign, JavaScript `parseInt` with no radix argument
parses hexadecimal when the digits start with `0x`/`0X`, else decimal. -/
def jsParseIntFrom (sgn : Int) (s : List Char) : Option Int :=
  match s with
  | '0' :: 'x' :: r => hexParse sgn r
  | '0' :: 'X' :: r => hexParse sgn r
  | r => decParse sgn r

/-- Model of JavaScript `parseInt(s)` with no radix argument, as called by
`saveEdit` (`home.tsx` line 243): skip whitespace, optional sign, `0x` hex
detection, longest digit prefix; `none` models the NaN result. -/
def jsParseInt (l : List Char) : Option Int :=
  match l.dropWhile isWS with
  | '-' :: r => jsParseIntFrom (-1) r
  | '+' :: r => jsParseIntFrom 1 r
  | r => jsParseIntFrom 1 r

/-- Stated from the claim's words: the base-10 integer parse of the typed
text, i.e. JavaScript `parseInt(s, 10)`: skip whitespace, optional sign,
longest decimal-digit prefix, no hexadecimal detection. -/
def parseIntRadix10 (l : List Char) : Option Int :=
  match l.dropWhile isWS with
  | '-' :: r => decParse (-1) r
  | '+' :: r => decParse 1 r
  | r => decParse 1 r

/-- A JSON value of the PUT body (`NaN` serialises to `null`). -/
inductive JsonVal where
  | str (s : List Char)
  | num (n : Int)
  | jnull
deriving DecidableEq

/-- The JSON number sent for a `parseInt` result. -/
def jsonOfParse : Option Int → JsonVal
  | some n => JsonVal.num n
  | none => JsonVal.jnull

/-- What an invocation of `saveEdit` does: either a validation alert with no
request, or a PUT request with the given JSON body. -/
inductive SaveEditAction where
  | validationError
  | putRequest (body : List (String × JsonVal))
deriving DecidableEq

/-- `saveEdit` of `home.tsx` lines 224–263: rejects blank serving size or
weight text, otherwise PUTs exactly `serving_size` (the typed text) and
`serving_weight` (`parseInt` of the typed text). -/
def saveEdit (editServingSize editServingWeight : List Char) : SaveEditAction :=
  if trimJS editServingSize = [] then SaveEditAction.validationError
  else if trimJS editServingWeight = [] then SaveEditAction.validationError
  else SaveEditAction.putRequest
    [("serving_size", JsonVal.str editServingSize),
     ("serving_weight", jsonOfParse (jsParseInt editServingWeight))]

/-! ### Concrete example data (for witnesses and the spec's worked examples) -/

/-- Example entry of user 1 on day 0 (the spec's 300-calorie entry). -/
def exEntry1 : FoodEntry :=
  { id := 1, user_id := 1, food_name := "Poha".data, calories := 300,
    protein := 6, carbs := 50, fats := 8, serving_size := "1 plate (150g)".data,
    serving_weight := some 150, entry_type := EntryType.manual,
    image_data := none, timestamp := 100 }

/-- Example entry of user 1 on day 0 (the spec's 500-calorie entry). -/
def exEntry2 : FoodEntry :=
  { id := 2, user_id := 1, food_name := "Dal Rice".data, calories := 500,
    protein := 18, carbs := 80, fats := 10, serving_size := "1 bowl".data,
    serving_weight := none, entry_type := EntryType.search,
    image_data := none, timestamp := 200 }

/-- Example entry of user 1 on day 0 (the spec's 428-calorie entry). -/
def exEntry3 : FoodEntry :=
  { id := 3, user_id := 1, food_name := "Paneer Wrap".data, calories := 428,
    protein := 20, carbs := 45, fats := 18, serving_size := "1 wrap".data,
    serving_weight := none, entry_type := EntryType.image,
    image_data := some "img".data, timestamp := 300 }

/-- An entry of a different user on the same day. -/
def exEntryOtherUser : FoodEntry :=
  { id := 4, user_id := 2, food_name := "Burger".data, calories := 999,
    protein := 25, carbs := 60, fats := 40, serving_size := "1 burger".data,
    serving_weight := none, entry_type := EntryType.manual,
    image_data := none, timestamp := 150 }

/-- An entry of user 1 on a different day (timestamp 100000 is day 1). -/
def exEntryOtherDay : FoodEntry :=
  { id := 5, user_id := 1, food_name := "Idli".data, calories := 777,
    protein := 12, carbs := 90, fats := 5, serving_size := "4 pieces".data,
    serving_weight := none, entry_type := EntryType.recipe,
    image_data := none, timestamp := 100000 }

/-- Example store, deliberately out of timestamp order. -/
def exStore : List FoodEntry :=
  [exEntry3, exEntry1, exEntryOtherUser, exEntry2, exEntryOtherDay]

/-- The regression entry of the serving-consistency defect: both the name and
the serving size embed the old 250 g weight. -/
def exRice : FoodEntry :=
  { id := 10, user_id := 7, food_name := "Rice Bowl (250g)".data, calories := 400,
    protein := 10, carbs := 70, fats := 9,
    serving_size := "1 large bowl (250g)".data, serving_weight := some 250,
    entry_type := EntryType.image, image_data := none, timestamp := 500 }

/-- A store holding only the regression entry. -/
def exRiceStore : List FoodEntry := [exRice]

/-- The weight-only patch of the regression test: serving_weight 100, no
serving_size, no food_name. -/
def weightOnlyPatch : UpdatePatch :=
  { serving_size := none, serving_weight := some 100, food_name := none }

/-- A fully populated create input. -/
def exInput : EntryInput :=
  { id := 20, user_id := 3, food_name := some "Banana".data,
    calories := some 105, protein := 1, carbs := 27, fats := 0,
    serving_size := "1 medium".data, serving_weight := none,
    entry_type := EntryType.manual, image_data := none, timestamp := 50 }

/-- The same input with the food name missing. -/
def exInputNoName : EntryInput := { exInput with food_name := none }

/-! ### Supporting lemmas -/

theorem digitsVal_append_singleton (l : List Char) (c : Char) :
    digitsVal (l ++ [c]) = digitsVal l * 10 + dval c := by
  simp [digitsVal, List.foldl_append]

theorem dval_digitChar {n : Nat} (h : n < 10) : dval (digitChar n) = n := by
  interval_cases n <;> decide

theorem isDigitC_digitChar {n : Nat} (h : n < 10) : isDigitC (digitChar n) = true := by
  interval_cases n <;> decide

theorem digitsVal_toDigitsAux : ∀ f n, n < f → digitsVal (toDigitsAux f n) = n := by
  intro f
  induction f with
  | zero => intro n h; omega
  | succ f ih =>
    intro n h
    by_cases h10 : n < 10
    · simp [toDigitsAux, h10, digitsVal, dval_digitChar h10]
    · have hd : n / 10 < f := by
        have h1 : n / 10 < n := Nat.div_lt_self (by omega) (by omega)
        omega
      have hmod : n % 10 < 10 := Nat.mod_lt _ (by omega)
      simp only [toDigitsAux, h10, if_false]
      rw [digitsVal_append_singleton, ih _ hd, dval_digitChar hmod]
      omega

theorem digitsVal_toDigits (n : Nat) : digitsVal (toDigits n) = n :=
  digitsVal_toDigitsAux _ _ (Nat.lt_succ_self n)

theorem toDigitsAux_digits : ∀ f n, ∀ c ∈ toDigitsAux f n, isDigitC c = true := by
  intro f
  induction f with
  | zero => intro n c hc; simp [toDigitsAux] at hc
  | succ f ih =>
    intro n c hc
    by_cases h10 : n < 10
    · simp [toDigitsAux, h10] at hc
      subst hc; exact isDigitC_digitChar h10
    · simp only [toDigitsAux, h10, if_false, List.mem_append, List.mem_singleton] at hc
      rcases hc with hc | hc
      · exact ih _ _ hc
      · subst hc; exact isDigitC_digitChar (Nat.mod_lt _ (by omega))

theorem toDigits_digits (n : Nat) : ∀ c ∈ toDigits n, isDigitC c = true :=
  toDigitsAux_digits _ _

theorem toDigits_ne_nil (n : Nat) : toDigits n ≠ [] := by
  unfold toDigits toDigitsAux
  by_cases h10 : n < 10 <;> simp [h10]

theorem splitBody_length : ∀ {l b rest}, splitBody l = some (b, rest) →
    l.length = b.length + rest.length + 1 := by
  intro l
  induction l with
  | nil => intro b rest h; simp [splitBody] at h
  | cons c r ih =>
    intro b rest h
    by_cases hc : c = ')'
    · simp [splitBody, hc] at h
      simp [← h.1, ← h.2]
    · by_cases hp : c = '('
      · simp [splitBody, hc, hp] at h
      · simp only [splitBody, if_neg hc, if_neg hp] at h
        cases hr : splitBody r with
        | none => rw [hr] at h; simp at h
        | some p =>
          obtain ⟨b', rest'⟩ := p
          rw [hr] at h; simp at h
          have := ih hr
          simp [← h.1, ← h.2, this]
          omega

theorem splitBody_append : ∀ {x b rest} (q : List Char), splitBody x = some (b, rest) →
    splitBody (x ++ q) = some (b, rest ++ q) := by
  intro x
  induction x with
  | nil => intro b rest q h; simp [splitBody] at h
  | cons c r ih =>
    intro b rest q h
    by_cases hc : c = ')'
    · simp [splitBody, hc] at h ⊢
      exact ⟨h.1, by rw [← h.2]⟩
    · by_cases hp : c = '('
      · simp [splitBody, hc, hp] at h
      · simp only [splitBody, if_neg hc, if_neg hp] at h ⊢
        cases hr : splitBody r with
        | none => rw [hr] at h; simp at h
        | some p =>
          obtain ⟨b', rest'⟩ := p
          rw [hr] at h
          simp at h
          rw [List.append_eq, ih q hr]
          simp [← h.1, ← h.2]

theorem takeTok_length {l : List Char} {n : Nat} {rest : List Char}
    (h : takeTok l = some (n, rest)) : rest.length < l.length := by
  unfold takeTok at h
  cases hs : splitBody l with
  | none => rw [hs] at h; simp at h
  | some p =>
    obtain ⟨b, r⟩ := p
    rw [hs] at h
    dsimp only at h
    cases hv : bodyVal b with
    | none => rw [hv] at h; simp at h
    | some m =>
      rw [hv] at h
      simp at h
      have := splitBody_length hs
      rw [← h.2]; omega

theorem takeTok_append {x : List Char} {n : Nat} {rest : List Char} (q : List Char)
    (h : takeTok x = some (n, rest)) : takeTok (x ++ q) = some (n, rest ++ q) := by
  unfold takeTok at h ⊢
  cases hs : splitBody x with
  | none => rw [hs] at h; simp at h
  | some p =>
    obtain ⟨b, r⟩ := p
    rw [hs] at h
    rw [splitBody_append q hs]
    dsimp only at h ⊢
    cases hv : bodyVal b with
    | none => rw [hv] at h; simp at h
    | some m =>
      rw [hv] at h
      simp at h ⊢
      exact ⟨h.1, by rw [h.2]⟩

theorem splitBody_cons_rparen (r : List Char) : splitBody (')' :: r) = some ([], r) := rfl

theorem splitBody_cons_lparen (r : List Char) : splitBody ('(' :: r) = none := rfl

theorem splitBody_cons_other {c : Char} (h1 : c ≠ ')') (h2 : c ≠ '(') (r : List Char) :
    splitBody (c :: r) =
      match splitBody r with
      | some (b, rest) => some (c :: b, rest)
      | none => none := by
  simp [splitBody, h1, h2]

theorem splitBody_straddle : ∀ {x b rest} (z : List Char),
    splitBody (x ++ ' ' :: '(' :: z) = some (b, rest) →
    ∃ r₀, splitBody x = some (b, r₀) ∧ rest = r₀ ++ ' ' :: '(' :: z := by
  intro x
  induction x with
  | nil =>
    intro b rest z h
    rw [List.nil_append, splitBody_cons_other (by decide) (by decide),
      splitBody_cons_lparen] at h
    simp at h
  | cons c r ih =>
    intro b rest z h
    by_cases hc : c = ')'
    · subst hc
      rw [List.cons_append, splitBody_cons_rparen] at h
      simp at h
      rw [splitBody_cons_rparen]
      exact ⟨r, by rw [h.1], h.2.symm⟩
    · by_cases hp : c = '('
      · subst hp
        rw [List.cons_append, splitBody_cons_lparen] at h
        simp at h
      · rw [List.cons_append, splitBody_cons_other hc hp] at h
        rw [splitBody_cons_other hc hp]
        cases hr : splitBody (r ++ ' ' :: '(' :: z) with
        | none => rw [hr] at h; simp at h
        | some p =>
          obtain ⟨b', rest'⟩ := p
          rw [hr] at h
          simp at h
          obtain ⟨r₀, hr₀, hrest'⟩ := ih z hr
          rw [hr₀]
          exact ⟨r₀, by simp [← h.1], by rw [← h.2, hrest']⟩

theorem takeTok_straddle {x : List Char} {n : Nat} {rest : List Char} (z : List Char)
    (h : takeTok (x ++ ' ' :: '(' :: z) = some (n, rest)) :
    ∃ r₀, takeTok x = some (n, r₀) := by
  unfold takeTok at h ⊢
  cases hs : splitBody (x ++ ' ' :: '(' :: z) with
  | none => rw [hs] at h; simp at h
  | some p =>
    obtain ⟨b, r⟩ := p
    rw [hs] at h
    dsimp only at h
    obtain ⟨r₀, hr₀, -⟩ := splitBody_straddle z hs
    rw [hr₀]
    dsimp only
    cases hv : bodyVal b with
    | none => rw [hv] at h; simp at h
    | some m =>
      rw [hv] at h
      simp at h
      exact ⟨r₀, by simp [h.1]⟩

theorem hasTokNum_imp_hasTok {n : Nat} : ∀ {l : List Char},
    hasTokNum n l = true → hasTok l = true := by
  intro l
  induction l with
  | nil => simp [hasTokNum]
  | cons c r ih =>
    intro h
    simp only [hasTokNum, Bool.or_eq_true] at h
    simp only [hasTok, Bool.or_eq_true]
    rcases h with h | h
    · left
      by_cases hc : c = '('
      · simp only [if_pos hc] at h ⊢
        cases ht : takeTok r with
        | none => rw [ht] at h; simp at h
        | some p => simp [ht]
      · simp [if_neg hc] at h
    · exact Or.inr (ih h)

theorem hasTokNum_append_right {n : Nat} (x : List Char) {q : List Char}
    (h : hasTokNum n q = true) : hasTokNum n (x ++ q) = true := by
  induction x with
  | nil => simpa
  | cons c r ih =>
    simp only [List.cons_append, hasTokNum, Bool.or_eq_true]
    exact Or.inr ih

theorem hasTokNum_append_left {n : Nat} {x : List Char} (q : List Char)
    (h : hasTokNum n x = true) : hasTokNum n (x ++ q) = true := by
  induction x with
  | nil => simp [hasTokNum] at h
  | cons c r ih =>
    simp only [hasTokNum, Bool.or_eq_true] at h
    simp only [List.cons_append, hasTokNum, Bool.or_eq_true]
    rcases h with h | h
    · left
      by_cases hc : c = '('
      · simp only [if_pos hc] at h ⊢
        cases ht : takeTok r with
        | none => rw [ht] at h; simp at h
        | some p =>
          obtain ⟨m, r'⟩ := p
          rw [ht] at h
          simp only [List.append_eq]
          rw [takeTok_append q ht]
          simpa using h
      · simp [if_neg hc] at h
    · exact Or.inr (ih h)

theorem hasTokNum_straddle {n : Nat} : ∀ (x : List Char) {z : List Char},
    hasTokNum n (x ++ ' ' :: '(' :: z) = true →
    hasTokNum n x = true ∨ hasTokNum n (' ' :: '(' :: z) = true := by
  intro x
  induction x with
  | nil => intro z h; exact Or.inr (by simpa using h)
  | cons c r ih =>
    intro z h
    simp only [List.cons_append, hasTokNum, Bool.or_eq_true] at h
    rcases h with h | h
    · left
      by_cases hc : c = '('
      · simp only [if_pos hc, List.append_eq] at h
        cases ht : takeTok (r ++ ' ' :: '(' :: z) with
        | none => rw [ht] at h; simp at h
        | some p =>
          obtain ⟨m, r'⟩ := p
          rw [ht] at h
          simp at h
          obtain ⟨r₀, hr₀⟩ := takeTok_straddle z ht
          simp only [hasTokNum, Bool.or_eq_true]
          left
          rw [if_pos hc, hr₀]
          simpa using h
      · simp [if_neg hc] at h
    · rcases ih h with h' | h'
      · exact Or.inl (by simp only [hasTokNum, Bool.or_eq_true]; exact Or.inr h')
      · exact Or.inr h'

theorem hasTokNum_no_lparen {n : Nat} : ∀ {l : List Char},
    (∀ c ∈ l, c ≠ '(') → hasTokNum n l = false := by
  intro l
  induction l with
  | nil => intro _; rfl
  | cons c r ih =>
    intro h
    have hc : c ≠ '(' := h c (List.mem_cons_self c r)
    simp only [hasTokNum, if_neg hc, Bool.false_or]
    exact ih fun d hd => h d (List.mem_cons_of_mem c hd)

theorem takeWhile_append_stop {p : Char → Bool} : ∀ {xs : List Char} {y : Char}
    (ys : List Char), (∀ c ∈ xs, p c = true) → p y = false →
    List.takeWhile p (xs ++ y :: ys) = xs := by
  intro xs
  induction xs with
  | nil => intro y ys _ hy; simp [List.takeWhile, hy]
  | cons c r ih =>
    intro y ys hall hy
    have hc : p c = true := hall c (List.mem_cons_self c r)
    simp only [List.cons_append, List.takeWhile, hc, List.append_eq]
    rw [ih ys (fun d hd => hall d (List.mem_cons_of_mem c hd)) hy]

theorem takeWhile_all {p : Char → Bool} : ∀ {xs : List Char},
    (∀ c ∈ xs, p c = true) → List.takeWhile p xs = xs := by
  intro xs
  induction xs with
  | nil => intro _; rfl
  | cons c r ih =>
    intro hall
    have hc : p c = true := hall c (List.mem_cons_self c r)
    simp only [List.takeWhile, hc]
    rw [ih fun d hd => hall d (List.mem_cons_of_mem c hd)]

theorem isDigitC_ne_paren {c : Char} (h : isDigitC c = true) :
    c ≠ '(' ∧ c ≠ ')' := by
  constructor <;> rintro rfl <;> simp [isDigitC] at h

theorem splitBody_noparens : ∀ {xs : List Char} (r : List Char),
    (∀ c ∈ xs, c ≠ ')' ∧ c ≠ '(') → splitBody (xs ++ ')' :: r) = some (xs, r) := by
  intro xs
  induction xs with
  | nil => intro r _; exact splitBody_cons_rparen r
  | cons c t ih =>
    intro r hall
    have hc := hall c (List.mem_cons_self c t)
    rw [List.cons_append, splitBody_cons_other hc.1 hc.2,
      ih r (fun d hd => hall d (List.mem_cons_of_mem c hd))]

theorem takeTok_inner (mid : List Char) (w : Nat)
    (hnp : ∀ c ∈ mid, c ≠ '(' ∧ c ≠ ')')
    (hstop : ∀ hd tl, mid.reverse = hd :: tl → isDigitC hd = false) :
    takeTok (mid ++ toDigits w ++ ['g', ')']) = some (w, []) := by
  have hshape : mid ++ toDigits w ++ ['g', ')'] =
      (mid ++ toDigits w ++ ['g']) ++ ')' :: ([] : List Char) := by simp
  have hsplit : splitBody (mid ++ toDigits w ++ ['g', ')']) =
      some (mid ++ toDigits w ++ ['g'], []) := by
    rw [hshape]
    apply splitBody_noparens
    intro c hc
    simp only [List.mem_append, List.mem_singleton] at hc
    rcases hc with (hc | hc) | hc
    · exact ⟨(hnp c hc).2, (hnp c hc).1⟩
    · have := isDigitC_ne_paren (toDigits_digits w c hc)
      exact ⟨this.2, this.1⟩
    · subst hc; exact ⟨by decide, by decide⟩
  have hbody : bodyVal (mid ++ toDigits w ++ ['g']) = some w := by
    unfold bodyVal
    have hrev : (mid ++ toDigits w ++ ['g']).reverse =
        'g' :: ((toDigits w).reverse ++ mid.reverse) := by
      simp
    rw [hrev]
    have htake : List.takeWhile isDigitC ((toDigits w).reverse ++ mid.reverse) =
        (toDigits w).reverse := by
      cases hm : mid.reverse with
      | nil =>
        rw [List.append_nil]
        exact takeWhile_all (fun c hc => toDigits_digits w c (List.mem_reverse.mp hc))
      | cons hd tl =>
        exact takeWhile_append_stop tl
          (fun c hc => toDigits_digits w c (List.mem_reverse.mp hc)) (hstop hd tl hm)
    dsimp only
    rw [if_pos rfl, htake]
    have hne : (toDigits w).reverse ≠ [] := by
      intro hcon
      exact toDigits_ne_nil w (by simpa using hcon)
    simp only [if_neg hne, List.reverse_reverse, digitsVal_toDigits]
  unfold takeTok
  rw [hsplit]
  dsimp only
  rw [hbody]

theorem hasTokNum_cons_other {c : Char} (hc : c ≠ '(') (n : Nat) (r : List Char) :
    hasTokNum n (c :: r) = hasTokNum n r := by
  simp [hasTokNum, hc]

theorem hasTokNum_cons_lparen (n : Nat) (r : List Char) :
    hasTokNum n ('(' :: r) =
      ((match takeTok r with
        | some (m, _) => decide (m = n)
        | none => false) || hasTokNum n r) := by
  simp [hasTokNum]

theorem hasTokNum_spaceTail {n : Nat} (mid : List Char) (w : Nat)
    (hnp : ∀ c ∈ mid, c ≠ '(' ∧ c ≠ ')')
    (hstop : ∀ hd tl, mid.reverse = hd :: tl → isDigitC hd = false)
    (h : hasTokNum n (' ' :: '(' :: (mid ++ toDigits w ++ ['g', ')'])) = true) :
    n = w := by
  have hnotok : hasTokNum n (mid ++ toDigits w ++ ['g', ')']) = false := by
    apply hasTokNum_no_lparen
    intro c hc
    simp only [List.mem_append, List.mem_cons, List.mem_singleton] at hc
    rcases hc with (hc | hc) | hc | hc
    · exact (hnp c hc).1
    · exact (isDigitC_ne_paren (toDigits_digits w c hc)).1
    · subst hc; decide
    · simp at hc; subst hc; decide
  rw [hasTokNum_cons_other (by decide), hasTokNum_cons_lparen,
    takeTok_inner mid w hnp hstop, hnotok] at h
  simp at h
  exact h.symm

theorem stripOnceAux_length_le : ∀ (f : Nat) (l : List Char),
    (stripOnceAux f l).length ≤ l.length := by
  intro f
  induction f with
  | zero => intro l; exact Nat.le_refl _
  | succ f ih =>
    intro l
    cases l with
    | nil => simp [stripOnceAux]
    | cons c r =>
      by_cases hc : c = '('
      · simp only [stripOnceAux, if_pos hc]
        cases ht : takeTok r with
        | none =>
          simpa [List.length_cons] using Nat.succ_le_succ (ih r)
        | some p =>
          obtain ⟨m, rest⟩ := p
          have h1 := takeTok_length ht
          have h2 := ih rest
          simp only [List.length_cons]
          omega
      · simp only [stripOnceAux, if_neg hc, List.length_cons]
        exact Nat.succ_le_succ (ih r)

theorem stripOnceAux_length_lt : ∀ (f : Nat) (l : List Char), l.length ≤ f →
    hasTok l = true → (stripOnceAux f l).length < l.length := by
  intro f
  induction f with
  | zero =>
    intro l hl h
    have : l = [] := List.length_eq_zero.mp (Nat.le_zero.mp hl)
    subst this
    simp [hasTok] at h
  | succ f ih =>
    intro l hl h
    cases l with
    | nil => simp [hasTok] at h
    | cons c r =>
      simp only [hasTok, Bool.or_eq_true] at h
      by_cases hc : c = '('
      · simp only [stripOnceAux, if_pos hc]
        cases ht : takeTok r with
        | none =>
          rw [if_pos hc, ht] at h
          simp at h
          have hr : r.length ≤ f := by simp at hl; omega
          have := ih r hr h
          simp only [List.length_cons]
          omega
        | some p =>
          obtain ⟨m, rest⟩ := p
          have h1 := takeTok_length ht
          have h2 := stripOnceAux_length_le f rest
          simp only [List.length_cons]
          omega
      · simp only [stripOnceAux, if_neg hc, List.length_cons]
        rw [if_neg hc] at h
        simp at h
        have hr : r.length ≤ f := by simp at hl; omega
        exact Nat.succ_lt_succ (ih r hr h)

theorem stripOnce_length_lt {l : List Char} (h : hasTok l = true) :
    (stripOnce l).length < l.length :=
  stripOnceAux_length_lt l.length l (Nat.le_refl _) h

theorem hasTok_stripFixAux : ∀ (f : Nat) (l : List Char), l.length ≤ f →
    hasTok (stripFixAux f l) = false := by
  intro f
  induction f with
  | zero =>
    intro l hl
    have : l = [] := List.length_eq_zero.mp (Nat.le_zero.mp hl)
    subst this
    rfl
  | succ f ih =>
    intro l hl
    by_cases h : hasTok l = true
    · simp only [stripFixAux, if_pos h]
      have := stripOnce_length_lt h
      exact ih (stripOnce l) (by omega)
    · simp only [stripFixAux, if_neg h]
      simpa using h

theorem hasTok_stripFix (l : List Char) : hasTok (stripFix l) = false :=
  hasTok_stripFixAux l.length l (Nat.le_refl _)

theorem hasTokNum_stripFix (n : Nat) (l : List Char) :
    hasTokNum n (stripFix l) = false := by
  cases hn : hasTokNum n (stripFix l) with
  | false => rfl
  | true =>
    have := hasTokNum_imp_hasTok hn
    rw [hasTok_stripFix] at this
    exact absurd this (by simp)

theorem exists_append_dropWhile (p : Char → Bool) :
    ∀ l : List Char, ∃ t, l = t ++ l.dropWhile p := by
  intro l
  induction l with
  | nil => exact ⟨[], rfl⟩
  | cons c r ih =>
    by_cases hc : p c = true
    · obtain ⟨t, ht⟩ := ih
      refine ⟨c :: t, ?_⟩
      simp only [List.dropWhile, hc]
      rw [List.cons_append, ← ht]
    · refine ⟨[], ?_⟩
      have hc' : p c = false := by revert hc; cases p c <;> simp
      simp [List.dropWhile, hc']

theorem hasTokNum_of_trimLeft {n : Nat} {l : List Char}
    (h : hasTokNum n (trimLeft l) = true) : hasTokNum n l = true := by
  obtain ⟨t, ht⟩ := exists_append_dropWhile isSpace l
  rw [ht]
  exact hasTokNum_append_right t h

theorem hasTokNum_of_trimRight {n : Nat} {l : List Char}
    (h : hasTokNum n (trimRight l) = true) : hasTokNum n l = true := by
  obtain ⟨t, ht⟩ := exists_append_dropWhile isSpace l.reverse
  have hl : l = trimRight l ++ t.reverse := by
    have := congrArg List.reverse ht
    simpa [trimRight] using this
  rw [hl]
  exact hasTokNum_append_left t.reverse h

theorem hasTokNum_of_trimC {n : Nat} {l : List Char}
    (h : hasTokNum n (trimC l) = true) : hasTokNum n l = true :=
  hasTokNum_of_trimLeft (hasTokNum_of_trimRight h)

theorem hasTokNum_of_dropCount {n : Nat} {l : List Char}
    (h : hasTokNum n (dropCount l) = true) : hasTokNum n l = true := by
  unfold dropCount at h
  by_cases h0 : l.takeWhile isDigitC = []
  · rwa [if_pos h0] at h
  · rw [if_neg h0] at h
    obtain ⟨t2, ht2⟩ := exists_append_dropWhile isSpace (l.dropWhile isDigitC)
    obtain ⟨t1, ht1⟩ := exists_append_dropWhile isDigitC l
    rw [ht1, ht2]
    exact hasTokNum_append_right t1 (hasTokNum_append_right t2 h)

theorem hasTokNum_regenServingSize {n w : Nat} (s : List Char) (hn : n ≠ w) :
    hasTokNum n (regenServingSize s w) = false := by
  cases hh : hasTokNum n (regenServingSize s w) with
  | false => rfl
  | true =>
    exfalso
    unfold regenServingSize weightTail at hh
    rcases hasTokNum_straddle _ hh with h | h
    · have := hasTokNum_of_dropCount (hasTokNum_of_trimC h)
      rw [hasTokNum_stripFix] at this
      exact absurd this (by simp)
    · have heq : n = w := by
        apply hasTokNum_spaceTail ([] : List Char) w (by simp)
          (by intro hd tl hcon; simp at hcon)
        simpa using h
      exact hn heq

theorem hasTokNum_regenFoodName {n w : Nat} (s : List Char) (hn : n ≠ w) :
    hasTokNum n (regenFoodName s w) = false := by
  cases hh : hasTokNum n (regenFoodName s w) with
  | false => rfl
  | true =>
    exfalso
    unfold regenFoodName approxTail at hh
    rcases hasTokNum_straddle _ hh with h | h
    · have := hasTokNum_of_trimC h
      rw [hasTokNum_stripFix] at this
      exact absurd this (by simp)
    · have heq : n = w := by
        apply hasTokNum_spaceTail approxChars w (by decide)
          (by
            intro hd tl hcon
            simp [approxChars] at hcon
            rw [← hcon.1]
            decide)
        simpa using h
      exact hn heq

theorem hasTokNum_eq_false_of_hasTok {n : Nat} {l : List Char}
    (h : hasTok l = false) : hasTokNum n l = false := by
  cases hn : hasTokNum n l with
  | false => rfl
  | true =>
    have := hasTokNum_imp_hasTok hn
    rw [h] at this
    exact absurd this (by simp)

/-! ### Claims -/

/-- Claim C1: for every food entry whose existing serving_size contains a
parenthetical weight token, applying an update patch that supplies
serving_weight but not serving_size strips the old weight token and produces
serving_size equal to `"<base description> (<new_weight>g)"`; in particular,
updating only serving_weight to 100 on an entry with serving_size
`"1 large bowl (250g)"` yields serving_size `"large bowl (100g)"`. -/
theorem C1_serving_size_regenerated (e : FoodEntry) (p : UpdatePatch) (w : Nat)
    (hw : p.serving_weight = some w) (hs : p.serving_size = none)
    (htok : hasTok e.serving_size = true) :
    (applyPatch e p).serving_size =
      trimC (dropCount (stripFix e.serving_size)) ++ weightTail w ∧
    (applyPatch exRice weightOnlyPatch).serving_size = "large bowl (100g)".data := by
  constructor
  · simp only [applyPatch, hs, hw, if_pos htok]
    rfl
  · decide

theorem C1_serving_size_regenerated_witness :
    (applyPatch exRice weightOnlyPatch).serving_size =
      trimC (dropCount (stripFix exRice.serving_size)) ++ weightTail 100 ∧
    (applyPatch exRice weightOnlyPatch).serving_size = "large bowl (100g)".data :=
  C1_serving_size_regenerated exRice weightOnlyPatch 100 rfl rfl (by decide)

/-- Claim C2: for every food entry whose food_name embeds a parenthetical weight
annotation, an update patch that supplies serving_weight but not serving_size
regenerates food_name to `"<base name> (approx. <new_weight>g)"`; after any
weight-only edit, neither food_name nor serving_size shows the stale (old)
weight. -/
theorem C2_food_name_regenerated (e : FoodEntry) (p : UpdatePatch) (w : Nat)
    (hw : p.serving_weight = some w) (hs : p.serving_size = none)
    (hn : p.food_name = none) (htok : hasTok e.food_name = true) :
    (applyPatch e p).food_name = trimC (stripFix e.food_name) ++ approxTail w ∧
    (∀ old, old ≠ w → hasTokNum old ((applyPatch e p).food_name) = false) ∧
    (∀ old, old ≠ w → hasTokNum old ((applyPatch e p).serving_size) = false) ∧
    (applyPatch exRice weightOnlyPatch).food_name =
      "Rice Bowl (approx. 100g)".data := by
  have hname : (applyPatch e p).food_name = regenFoodName e.food_name w := by
    simp only [applyPatch, hs, hw, hn, if_pos htok]
  refine ⟨hname, ?_, ?_, by decide⟩
  · intro old hold
    rw [hname]
    exact hasTokNum_regenFoodName _ hold
  · intro old hold
    by_cases hstok : hasTok e.serving_size = true
    · have hserv : (applyPatch e p).serving_size = regenServingSize e.serving_size w := by
        simp only [applyPatch, hs, hw, if_pos hstok]
      rw [hserv]
      exact hasTokNum_regenServingSize _ hold
    · have hfalse : hasTok e.serving_size = false := by
        revert hstok; cases hasTok e.serving_size <;> simp
      have hserv : (applyPatch e p).serving_size = e.serving_size := by
        simp only [applyPatch, hs, hw, hfalse]
        simp
      rw [hserv]
      exact hasTokNum_eq_false_of_hasTok hfalse

theorem C2_food_name_regenerated_witness :
    (applyPatch exRice weightOnlyPatch).food_name =
      trimC (stripFix exRice.food_name) ++ approxTail 100 ∧
    (∀ old, old ≠ 100 → hasTokNum old ((applyPatch exRice weightOnlyPatch).food_name) = false) ∧
    (∀ old, old ≠ 100 →
      hasTokNum old ((applyPatch exRice weightOnlyPatch).serving_size) = false) ∧
    (applyPatch exRice weightOnlyPatch).food_name = "Rice Bowl (approx. 100g)".data :=
  C2_food_name_regenerated exRice weightOnlyPatch 100 rfl rfl rfl (by decide)

/-- Claim C3: for every owner, date and goal, computeStats returns
`percentage = min(total_calories / goal * 100, 100)` when goal is nonzero,
and `percentage = 0` when goal is 0 (division-by-zero guard); e.g.
total_calories 1228 against goal 2000 gives percentage 61.4. -/
theorem C3_percentage (owner date : Nat) (goal : ℚ) (store : List FoodEntry) :
    (goal ≠ 0 → (computeStats owner date goal store).percentage =
      min ((computeStats owner date goal store).total_calories / goal * 100) 100) ∧
    (goal = 0 → (computeStats owner date goal store).percentage = 0) ∧
    (computeStats 1 0 2000 exStore).total_calories = 1228 ∧
    (computeStats 1 0 2000 exStore).percentage = 61.4 := by
  have hl : listByDate 1 0 exStore = [exEntry1, exEntry2, exEntry3] := by decide
  refine ⟨?_, ?_, ?_, ?_⟩
  · intro hg
    simp only [computeStats, if_neg hg]
  · intro hg
    simp only [computeStats, if_pos hg]
  · simp [computeStats, hl, exEntry1, exEntry2, exEntry3]
    norm_num
  · simp [computeStats, hl, exEntry1, exEntry2, exEntry3]
    norm_num [min_def]

theorem C3_percentage_witness :
    (computeStats 1 0 2000 exStore).percentage =
      min ((computeStats 1 0 2000 exStore).total_calories / 2000 * 100) 100 ∧
    (computeStats 1 0 0 exStore).percentage = 0 :=
  ⟨(C3_percentage 1 0 2000 exStore).1 (by norm_num),
   (C3_percentage 1 0 0 exStore).2.1 rfl⟩

/-- Claim C4: for every owner, date and goal, computeStats returns total_calories
equal to the exact sum of the calories of the entries from
listByDate(owner, date) and remaining_calories exactly equal to
goal - total_calories, with negative values allowed when over goal; e.g.
goal 2000 and entries with calories [300, 500, 428] yields total 1228 and
remaining 772. -/
theorem C4_totals (owner date : Nat) (goal : ℚ) (store : List FoodEntry) :
    (computeStats owner date goal store).total_calories =
      ((listByDate owner date store).map FoodEntry.calories).sum ∧
    (computeStats owner date goal store).remaining_calories =
      goal - (computeStats owner date goal store).total_calories ∧
    (computeStats 1 0 2000 exStore).total_calories = 1228 ∧
    (computeStats 1 0 2000 exStore).remaining_calories = 772 ∧
    (computeStats 1 0 1000 exStore).remaining_calories = -228 := by
  have hl : listByDate 1 0 exStore = [exEntry1, exEntry2, exEntry3] := by decide
  refine ⟨rfl, rfl, ?_, ?_, ?_⟩
  · simp [computeStats, hl, exEntry1, exEntry2, exEntry3]
    norm_num
  · simp [computeStats, hl, exEntry1, exEntry2, exEntry3]
    norm_num
  · simp [computeStats, hl, exEntry1, exEntry2, exEntry3]
    norm_num

/-- Claim C5: for every owner and date, listByDate(owner, date) returns exactly
the entries whose user_id equals owner and whose derived calendar date
equals the requested date (no entry of another user or another day
appears), and the returned list is ordered by timestamp ascending. -/
theorem C5_listByDate (owner date : Nat) (store : List FoodEntry) :
    (∀ e : FoodEntry, e ∈ listByDate owner date store ↔
      (e ∈ store ∧ e.user_id = owner ∧ entryDate e = date)) ∧
    (listByDate owner date store).Sorted tsLe := by
  constructor
  · intro e
    unfold listByDate
    rw [List.mem_insertionSort, List.mem_filter]
    simp [and_assoc]
  · exact List.sorted_insertionSort tsLe _

theorem C5_listByDate_witness :
    exEntry1 ∈ listByDate 1 0 exStore ∧ exEntryOtherUser ∉ listByDate 1 0 exStore :=
  ⟨((C5_listByDate 1 0 exStore).1 exEntry1).mpr ⟨by decide, by decide, by decide⟩,
   fun hmem => by
    have := ((C5_listByDate 1 0 exStore).1 exEntryOtherUser).mp hmem
    exact absurd this.2.1 (by decide)⟩

/-- Claim C6: for every existing entry and every update patch, a successful
update(id, owner, patch) changes only the patchable fields serving_size,
serving_weight and food_name (the latter regenerated per the consistency
rule); all other fields — id, user_id, calories, protein, carbs, fats,
entry_type, image_data, timestamp and date — are unchanged, and no other
entry in the store is modified. -/
theorem C6_update_frame (id owner : Nat) (p : UpdatePatch) (store s' : List FoodEntry)
    (h : update id owner p store = Except.ok s') :
    s' = store.map (fun e => if matchesOwner id owner e then applyPatch e p else e) ∧
    (∀ e ∈ store, matchesOwner id owner e = false → e ∈ s') ∧
    (∀ e : FoodEntry,
      (applyPatch e p).id = e.id ∧
      (applyPatch e p).user_id = e.user_id ∧
      (applyPatch e p).calories = e.calories ∧
      (applyPatch e p).protein = e.protein ∧
      (applyPatch e p).carbs = e.carbs ∧
      (applyPatch e p).fats = e.fats ∧
      (applyPatch e p).entry_type = e.entry_type ∧
      (applyPatch e p).image_data = e.image_data ∧
      (applyPatch e p).timestamp = e.timestamp ∧
      entryDate (applyPatch e p) = entryDate e) := by
  unfold update at h
  split at h
  · have hs' : s' =
        store.map (fun e => if matchesOwner id owner e then applyPatch e p else e) := by
      injection h with h'
      exact h'.symm
    refine ⟨hs', ?_, ?_⟩
    · intro e he hm
      rw [hs']
      exact List.mem_map.mpr ⟨e, he, by simp [hm]⟩
    · intro e
      exact ⟨rfl, rfl, rfl, rfl, rfl, rfl, rfl, rfl, rfl, rfl⟩
  · exact absurd h (by simp)

theorem C6_update_frame_witness :
    (exRiceStore.map fun e => if matchesOwner 10 7 e then applyPatch e weightOnlyPatch else e) =
      (exRiceStore.map fun e => if matchesOwner 10 7 e then applyPatch e weightOnlyPatch else e) ∧
    (∀ e ∈ exRiceStore, matchesOwner 10 7 e = false →
      e ∈ exRiceStore.map fun e => if matchesOwner 10 7 e then applyPatch e weightOnlyPatch else e) ∧
    (∀ e : FoodEntry,
      (applyPatch e weightOnlyPatch).id = e.id ∧
      (applyPatch e weightOnlyPatch).user_id = e.user_id ∧
      (applyPatch e weightOnlyPatch).calories = e.calories ∧
      (applyPatch e weightOnlyPatch).protein = e.protein ∧
      (applyPatch e weightOnlyPatch).carbs = e.carbs ∧
      (applyPatch e weightOnlyPatch).fats = e.fats ∧
      (applyPatch e weightOnlyPatch).entry_type = e.entry_type ∧
      (applyPatch e weightOnlyPatch).image_data = e.image_data ∧
      (applyPatch e weightOnlyPatch).timestamp = e.timestamp ∧
      entryDate (applyPatch e weightOnlyPatch) = entryDate e) :=
  C6_update_frame 10 7 weightOnlyPatch exRiceStore _ rfl

/-- Claim C7: for every id and owner, delete(id, owner) fails with NotFound if no
entry with that id exists or the entry belongs to a different owner, and in
that case the store is unchanged — the deletion never silently succeeds;
the same ownership rule applies to update(id, owner, patch). -/
theorem C7_delete_notFound (id owner : Nat) (p : UpdatePatch) (store : List FoodEntry)
    (h : ∀ e ∈ store, ¬(e.id = id ∧ e.user_id = owner)) :
    delete id owner store = Except.error StoreError.NotFound ∧
    update id owner p store = Except.error StoreError.NotFound ∧
    (∀ s', delete id owner store ≠ Except.ok s') := by
  have hany : store.any (matchesOwner id owner) = false := by
    rw [List.any_eq_false]
    intro e he
    simp only [matchesOwner, Bool.and_eq_true, decide_eq_true_eq]
    exact h e he
  refine ⟨?_, ?_, ?_⟩
  · simp [delete, hany]
  · simp [update, hany]
  · intro s'
    simp [delete, hany]

theorem C7_delete_notFound_witness :
    delete 99 1 exStore = Except.error StoreError.NotFound ∧
    update 99 1 weightOnlyPatch exStore = Except.error StoreError.NotFound ∧
    (∀ s', delete 99 1 exStore ≠ Except.ok s') :=
  C7_delete_notFound 99 1 weightOnlyPatch exStore (by decide)

/-- Claim C8: for every submitted entry, create(entry) fails with ValidationError
when food_name or calories is missing, and inserts a new entry into the
store otherwise. -/
theorem C8_create (i : EntryInput) (store : List FoodEntry) :
    (create i store = Except.error StoreError.ValidationError ↔
      (i.food_name = none ∨ i.calories = none)) ∧
    (∀ nm c, i.food_name = some nm → i.calories = some c →
      create i store = Except.ok (store ++ [mkEntry i nm c])) := by
  constructor
  · unfold create
    cases hf : i.food_name with
    | none => cases hc : i.calories <;> simp
    | some nm =>
      cases hc : i.calories with
      | none => simp
      | some c => simp
  · intro nm c hf hc
    unfold create
    rw [hf, hc]

theorem C8_create_witness :
    create exInput [] = Except.ok ([] ++ [mkEntry exInput ("Banana".data) 105]) ∧
    create exInputNoName [] = Except.error StoreError.ValidationError :=
  ⟨(C8_create exInput []).2 ("Banana".data) 105 rfl rfl,
   (C8_create exInputNoName []).1.mpr (Or.inl rfl)⟩

/-- Claim C9: the claim states that on every platform the access_token persisted
by login under the key 'token' is exactly what loadStoredAuth reads back on
the next start.  Evaluating the code at the failing input: on web, `login`
writes through `AsyncStorage.setItem` directly while `loadStoredAuth` reads
through the `Storage` wrapper (localStorage on web), so a fresh web client
restores no token after a successful login; on native the round-trip holds. -/
theorem C9_token_roundtrip_eval :
    loadStoredAuth ClientPlatform.web (login emptyStorage "jwt-abc") = none ∧
    loadStoredAuth ClientPlatform.native (login emptyStorage "jwt-abc") = some "jwt-abc" ∧
    (login emptyStorage "jwt-abc").localStore = [] :=
  ⟨rfl, rfl, rfl⟩

/-- C10 counterexample: the claim calls the weight sent by saveEdit "the
base-10 integer parse of the typed text", but `parseInt` with no radix
auto-detects hexadecimal: for the typed weight `"0x10"` the issued PUT body
carries 16, while the base-10 parse of `"0x10"` is 0. -/
theorem C10_counterexample :
    saveEdit ("1 cup".data) ("0x10".data) =
      SaveEditAction.putRequest
        [("serving_size", JsonVal.str ("1 cup".data)),
         ("serving_weight", JsonVal.num 16)] ∧
    parseIntRadix10 ("0x10".data) = some 0 ∧
    (JsonVal.num 16 ≠ JsonVal.num 0) := by
  refine ⟨by decide, by decide, by decide⟩

/-- C10 (amended): saveEdit issues no PUT request (validation error, entry
unchanged) when the serving-size or serving-weight text is empty after
trimming; when it does issue the request, the body contains exactly the two
fields serving_size (the typed text) and serving_weight (the JavaScript
`parseInt` of the typed text — base 10 except for a `0x`/`0X` prefix parsed
as hexadecimal, `null` when no digits are found), and never food_name. -/
theorem C10_saveEdit_spec (size weight : List Char) :
    (trimJS size = [] ∨ trimJS weight = [] →
      saveEdit size weight = SaveEditAction.validationError) ∧
    (trimJS size ≠ [] → trimJS weight ≠ [] →
      saveEdit size weight = SaveEditAction.putRequest
        [("serving_size", JsonVal.str size),
         ("serving_weight", jsonOfParse (jsParseInt weight))]) ∧
    (∀ body, saveEdit size weight = SaveEditAction.putRequest body →
      body.map Prod.fst = ["serving_size", "serving_weight"] ∧
      ∀ v, ("food_name", v) ∉ body) := by
  refine ⟨?_, ?_, ?_⟩
  · intro h
    rcases h with h | h
    · simp [saveEdit, h]
    · by_cases hsz : trimJS size = []
      · simp [saveEdit, hsz]
      · simp [saveEdit, hsz, h]
  · intro h1 h2
    simp [saveEdit, h1, h2]
  · intro body hb
    unfold saveEdit at hb
    by_cases hsz : trimJS size = []
    · rw [if_pos hsz] at hb
      exact absurd hb (by simp)
    · rw [if_neg hsz] at hb
      by_cases hwt : trimJS weight = []
      · rw [if_pos hwt] at hb
        exact absurd hb (by simp)
      · rw [if_neg hwt] at hb
        injection hb with hb'
        subst hb'
        refine ⟨rfl, ?_⟩
        intro v hv
        simp at hv

theorem C10_saveEdit_spec_witness :
    saveEdit ("1 cup".data) ("250".data) =
      SaveEditAction.putRequest
        [("serving_size", JsonVal.str ("1 cup".data)),
         ("serving_weight", jsonOfParse (jsParseInt ("250".data)))] :=
  (C10_saveEdit_spec ("1 cup".data) ("250".data)).2.1 (by decide) (by decide)

end MealTracker
